import Mathlib

/-!
Verification of the CACD metadata analyzer (`cacd_metadata_analyzer.py`)
against its natural-language specification.

Shallow embedding: each Python function is translated into an executable
Lean definition.  Machine floats (confidence values, thresholds) are
modelled as rationals.  The Unicode data consulted via `unicodedata`,
`str.lower` and regular-expression character classes is modelled by
concrete finite tables covering the ASCII plus Portuguese (Latin-1)
fragment that the program manipulates; characters outside the tables
behave as inert (no decomposition, not marks, lowercase-stable).
-/

namespace CACD

/-! ### Character-level model of the Unicode operations used by `_normalize_text`

`_normalize_text` performs: NFD decomposition, removal of combining marks
(category Mn), lowercasing, replacement of characters outside `[\w\s]` by
spaces, and whitespace collapsing via `' '.join(text.split())`. -/

/-- Combining marks (Unicode category Mn) occurring in the decompositions
of the Latin-1 letters in the table below: grave, acute, circumflex,
tilde, diaeresis, cedilla. -/
def combiningMarks : List Char :=
  [Char.ofNat 0x300, Char.ofNat 0x301, Char.ofNat 0x302, Char.ofNat 0x303,
   Char.ofNat 0x308, Char.ofNat 0x327]

/-- Model of `unicodedata.category(c) == 'Mn'` on the covered fragment. -/
def isMn (c : Char) : Bool := combiningMarks.contains c

/-- Canonical (NFD) decompositions of the accented Latin-1 letters used by
the program (Portuguese alphabet), from the Unicode character database. -/
def nfdTable : List (Char × List Char) :=
  [('À', ['A', Char.ofNat 0x300]), ('Á', ['A', Char.ofNat 0x301]),
   ('Â', ['A', Char.ofNat 0x302]), ('Ã', ['A', Char.ofNat 0x303]),
   ('Ç', ['C', Char.ofNat 0x327]), ('É', ['E', Char.ofNat 0x301]),
   ('Ê', ['E', Char.ofNat 0x302]), ('Í', ['I', Char.ofNat 0x301]),
   ('Ó', ['O', Char.ofNat 0x301]), ('Ô', ['O', Char.ofNat 0x302]),
   ('Õ', ['O', Char.ofNat 0x303]), ('Ú', ['U', Char.ofNat 0x301]),
   ('Ü', ['U', Char.ofNat 0x308]),
   ('à', ['a', Char.ofNat 0x300]), ('á', ['a', Char.ofNat 0x301]),
   ('â', ['a', Char.ofNat 0x302]), ('ã', ['a', Char.ofNat 0x303]),
   ('ç', ['c', Char.ofNat 0x327]), ('é', ['e', Char.ofNat 0x301]),
   ('ê', ['e', Char.ofNat 0x302]), ('í', ['i', Char.ofNat 0x301]),
   ('ó', ['o', Char.ofNat 0x301]), ('ô', ['o', Char.ofNat 0x302]),
   ('õ', ['o', Char.ofNat 0x303]), ('ú', ['u', Char.ofNat 0x301]),
   ('ü', ['u', Char.ofNat 0x308])]

/-- Model of `unicodedata.normalize('NFD', ·)` applied characterwise. -/
def nfdChar (c : Char) : List Char :=
  match nfdTable.find? (fun p => p.1 == c) with
  | some p => p.2
  | none => [c]

/-- Lowercase mapping of `str.lower` on the covered fragment: ASCII
uppercase plus the accented uppercase letters of the table above. -/
def lowerTable : List (Char × Char) :=
  [('A', 'a'), ('B', 'b'), ('C', 'c'), ('D', 'd'), ('E', 'e'), ('F', 'f'),
   ('G', 'g'), ('H', 'h'), ('I', 'i'), ('J', 'j'), ('K', 'k'), ('L', 'l'),
   ('M', 'm'), ('N', 'n'), ('O', 'o'), ('P', 'p'), ('Q', 'q'), ('R', 'r'),
   ('S', 's'), ('T', 't'), ('U', 'u'), ('V', 'v'), ('W', 'w'), ('X', 'x'),
   ('Y', 'y'), ('Z', 'z'),
   ('À', 'à'), ('Á', 'á'), ('Â', 'â'), ('Ã', 'ã'), ('Ç', 'ç'), ('É', 'é'),
   ('Ê', 'ê'), ('Í', 'í'), ('Ó', 'ó'), ('Ô', 'ô'), ('Õ', 'õ'), ('Ú', 'ú'),
   ('Ü', 'ü')]

/-- Model of `str.lower` characterwise. -/
def pyLower (c : Char) : Char :=
  match lowerTable.find? (fun p => p.1 == c) with
  | some p => p.2
  | none => c

/-- Model of the regular-expression class `\w` (word character) on the
ASCII fragment: letters, digits, underscore. -/
def pyIsWord (c : Char) : Bool :=
  (97 ≤ c.toNat && c.toNat ≤ 122) || (65 ≤ c.toNat && c.toNat ≤ 90) ||
  (48 ≤ c.toNat && c.toNat ≤ 57) || c.toNat == 95

/-- Model of the whitespace class used both by `\s` and by `str.split()`
on the ASCII fragment. -/
def pyIsSpace (c : Char) : Bool :=
  c.toNat == 32 || c.toNat == 9 || c.toNat == 10 ||
  c.toNat == 13 || c.toNat == 11 || c.toNat == 12

/-- Accumulator-based splitter behind `pyWords` (model of `str.split()`):
splits on runs of whitespace, dropping empty fragments. -/
def wordsAux : List Char → List Char → List (List Char)
  | [], acc => if acc.isEmpty then [] else [acc.reverse]
  | c :: cs, acc =>
    if pyIsSpace c then
      if acc.isEmpty then wordsAux cs []
      else acc.reverse :: wordsAux cs []
    else wordsAux cs (c :: acc)

/-- Model of `str.split()` (split on whitespace, no empty words). -/
def pyWords (l : List Char) : List (List Char) := wordsAux l []

/-- Model of `' '.join(words)`. -/
def joinSpace : List (List Char) → List Char
  | [] => []
  | [w] => w
  | w :: x :: ws => w ++ (' ' :: joinSpace (x :: ws))

/-- Character mapping stages of `CACDTaxonomyAnalyzer._normalize_text`:
NFD-decompose, strip combining marks, lowercase, replace characters
outside `[\w\s]` by a space. -/
def stage3 (l : List Char) : List Char :=
  (((l.flatMap nfdChar).filter (fun c => !(isMn c))).map pyLower).map
    (fun c => if pyIsWord c || pyIsSpace c then c else ' ')

/-- Character-list core of `CACDTaxonomyAnalyzer._normalize_text`: the
mapping stages followed by whitespace collapsing `' '.join(text.split())`. -/
def normalizeChars (l : List Char) : List Char :=
  joinSpace (pyWords (stage3 l))

/-- Model of `CACDTaxonomyAnalyzer._normalize_text`. -/
def normalize_text (s : String) : String :=
  if s = "" then "" else String.mk (normalizeChars s.data)

/-- Model of `str.strip()` (trim whitespace at both ends). -/
def pyStripChars (l : List Char) : List Char :=
  ((l.dropWhile pyIsSpace).reverse.dropWhile pyIsSpace).reverse

/-- Model of `str.strip()` on strings. -/
def pyStripS (s : String) : String := String.mk (pyStripChars s.data)

/-- Model of `s.startswith(pre)`. -/
def pyStartsWith (s pre : String) : Bool := pre.data.isPrefixOf s.data

/-- Split at the first occurrence of `sep` (dropping the separator). -/
def splitOnceChars (sep : List Char) : List Char →
    Option (List Char × List Char)
  | [] => none
  | l@(c :: cs) =>
    if sep.isPrefixOf l then some ([], l.drop sep.length)
    else
      match splitOnceChars sep cs with
      | some r => some (c :: r.1, r.2)
      | none => none

/-- Fuel-bounded splitting on a (non-empty) separator; the fuel is always
instantiated above the input length, so the bound is never hit. -/
def splitSepFuel (sep : List Char) : Nat → List Char → List (List Char)
  | 0, l => [l]
  | fuel + 1, l =>
    match splitOnceChars sep l with
    | none => [l]
    | some r => r.1 :: splitSepFuel sep fuel r.2

/-- Model of Python `s.split(sep)` for a non-empty separator (keeps empty
fragments, as Python does). -/
def pySplitSep (s sep : String) : List String :=
  (splitSepFuel sep.data (s.data.length + 1) s.data).map String.mk

/-- Fuel-bounded worker for `pyReplace`. -/
def replaceFuel (old new : List Char) : Nat → List Char → List Char
  | 0, l => l
  | fuel + 1, l =>
    match l with
    | [] => []
    | c :: cs =>
      if old.isPrefixOf l then
        new ++ replaceFuel old new fuel (l.drop old.length)
      else c :: replaceFuel old new fuel cs

/-- Model of Python `s.replace(old, new)` (all non-overlapping
occurrences, left to right; `old` is non-empty at every use site). -/
def pyReplace (s old new : String) : String :=
  String.mk (replaceFuel old.data new.data (s.data.length + 1) s.data)

/-- Model of `sep.join(parts)`. -/
def strIntercalate (sep : String) : List String → String
  | [] => ""
  | [x] => x
  | x :: y :: r => x ++ sep ++ strIntercalate sep (y :: r)

/-! ### Structural lemmas about `pyWords` and `joinSpace` -/

lemma wordsAux_ne_nil_nospace {l : List Char} :
    ∀ {acc : List Char}, (∀ c ∈ acc, pyIsSpace c = false) →
    ∀ {w : List Char}, w ∈ wordsAux l acc →
      w ≠ [] ∧ ∀ c ∈ w, pyIsSpace c = false := by
  induction l with
  | nil =>
    intro acc hacc w hw
    simp only [wordsAux] at hw
    cases hae : acc.isEmpty with
    | true => simp [hae] at hw
    | false =>
      simp only [hae, Bool.false_eq_true, if_false, List.mem_singleton] at hw
      subst hw
      refine ⟨?_, ?_⟩
      · simp only [ne_eq, List.reverse_eq_nil_iff]
        intro h
        rw [h] at hae
        simp at hae
      · intro c hc
        exact hacc c (List.mem_reverse.mp hc)
  | cons c cs ih =>
    intro acc hacc w hw
    simp only [wordsAux] at hw
    cases hs : pyIsSpace c with
    | true =>
      rw [hs] at hw
      simp only [if_true] at hw
      cases hae : acc.isEmpty with
      | true =>
        rw [hae] at hw
        simp only [if_true] at hw
        exact ih (by simp) hw
      | false =>
        rw [hae] at hw
        simp only [Bool.false_eq_true, if_false, List.mem_cons] at hw
        rcases hw with hw | hw
        · subst hw
          refine ⟨?_, ?_⟩
          · simp only [ne_eq, List.reverse_eq_nil_iff]
            intro h
            rw [h] at hae
            simp at hae
          · intro x hx
            exact hacc x (List.mem_reverse.mp hx)
        · exact ih (by simp) hw
    | false =>
      rw [hs] at hw
      simp only [Bool.false_eq_true, if_false] at hw
      refine ih ?_ hw
      intro x hx
      rcases List.mem_cons.mp hx with hx | hx
      · subst hx; exact hs
      · exact hacc x hx

lemma mem_of_mem_wordsAux {l : List Char} :
    ∀ {acc w : List Char}, w ∈ wordsAux l acc → ∀ {c : Char}, c ∈ w →
      c ∈ l ∨ c ∈ acc := by
  induction l with
  | nil =>
    intro acc w hw c hc
    simp only [wordsAux] at hw
    cases hae : acc.isEmpty with
    | true => simp [hae] at hw
    | false =>
      rw [hae] at hw
      simp only [Bool.false_eq_true, if_false, List.mem_singleton] at hw
      subst hw
      exact Or.inr (List.mem_reverse.mp hc)
  | cons a cs ih =>
    intro acc w hw c hc
    simp only [wordsAux] at hw
    cases hs : pyIsSpace a with
    | true =>
      rw [hs] at hw
      simp only [if_true] at hw
      cases hae : acc.isEmpty with
      | true =>
        rw [hae] at hw
        simp only [if_true] at hw
        rcases ih hw hc with h | h
        · exact Or.inl (List.mem_cons_of_mem a h)
        · simp at h
      | false =>
        rw [hae] at hw
        simp only [Bool.false_eq_true, if_false, List.mem_cons] at hw
        rcases hw with hw | hw
        · subst hw
          exact Or.inr (List.mem_reverse.mp hc)
        · rcases ih hw hc with h | h
          · exact Or.inl (List.mem_cons_of_mem a h)
          · simp at h
    | false =>
      rw [hs] at hw
      simp only [Bool.false_eq_true, if_false] at hw
      rcases ih hw hc with h | h
      · exact Or.inl (List.mem_cons_of_mem a h)
      · rcases List.mem_cons.mp h with h | h
        · subst h; exact Or.inl (List.mem_cons_self c cs)
        · exact Or.inr h

lemma wordsAux_append_nospace {w : List Char}
    (hw : ∀ c ∈ w, pyIsSpace c = false) :
    ∀ t acc, wordsAux (w ++ t) acc = wordsAux t (w.reverse ++ acc) := by
  induction w with
  | nil => intro t acc; simp
  | cons c cs ih =>
    intro t acc
    have hc : pyIsSpace c = false := hw c (List.mem_cons_self c cs)
    simp only [List.cons_append, wordsAux, hc, Bool.false_eq_true, if_false]
    show wordsAux (cs ++ t) (c :: acc) = wordsAux t ((c :: cs).reverse ++ acc)
    rw [ih (fun x hx => hw x (List.mem_cons_of_mem c hx)) t (c :: acc)]
    rw [List.reverse_cons, List.append_assoc, List.singleton_append]

lemma mem_joinSpace {ws : List (List Char)} {c : Char}
    (hc : c ∈ joinSpace ws) : c = ' ' ∨ ∃ w ∈ ws, c ∈ w := by
  induction ws with
  | nil => simp [joinSpace] at hc
  | cons w ws ih =>
    cases ws with
    | nil => exact Or.inr ⟨w, List.mem_singleton.mpr rfl, hc⟩
    | cons x ws2 =>
      simp only [joinSpace] at hc
      rcases List.mem_append.mp hc with h | h
      · exact Or.inr ⟨w, List.mem_cons_self w _, h⟩
      · rcases List.mem_cons.mp h with h | h
        · exact Or.inl h
        · rcases ih h with h | ⟨w2, hw2, hcw⟩
          · exact Or.inl h
          · exact Or.inr ⟨w2, List.mem_cons_of_mem w hw2, hcw⟩

lemma pyWords_joinSpace :
    ∀ ws : List (List Char),
      (∀ w ∈ ws, w ≠ [] ∧ ∀ c ∈ w, pyIsSpace c = false) →
      pyWords (joinSpace ws) = ws := by
  intro ws
  induction ws with
  | nil => intro _; rfl
  | cons w ws ih =>
    intro h
    obtain ⟨hne, hns⟩ := h w (List.mem_cons_self w ws)
    cases ws with
    | nil =>
      show wordsAux (joinSpace [w]) [] = [w]
      have hj : joinSpace [w] = w := rfl
      rw [hj, ← List.append_nil w, wordsAux_append_nospace hns [] []]
      simp only [wordsAux, List.append_nil, List.isEmpty_iff,
        List.reverse_eq_nil_iff]
      rw [if_neg hne]
      simp
    | cons x ws2 =>
      show wordsAux (joinSpace (w :: x :: ws2)) [] = w :: x :: ws2
      have hj : joinSpace (w :: x :: ws2) = w ++ (' ' :: joinSpace (x :: ws2)) :=
        rfl
      rw [hj, wordsAux_append_nospace hns _ []]
      have hsp : pyIsSpace ' ' = true := by decide
      simp only [wordsAux, hsp, if_true, List.append_nil, List.isEmpty_iff,
        List.reverse_eq_nil_iff]
      rw [if_neg hne, List.reverse_reverse]
      have := ih (fun v hv => h v (List.mem_cons_of_mem w hv))
      rw [show wordsAux (joinSpace (x :: ws2)) [] = pyWords (joinSpace (x :: ws2)) from rfl, this]

/-! ### Table facts used for idempotence of normalization -/

lemma pyLower_pyLower (c : Char) : pyLower (pyLower c) = pyLower c := by
  unfold pyLower
  cases h : lowerTable.find? (fun p => p.1 == c) with
  | none => rw [h]
  | some p =>
    have hmem := List.mem_of_find?_eq_some h
    have hnone : lowerTable.find? (fun q => q.1 == p.2) = none := by
      rw [List.find?_eq_none]
      intro q hq
      have hall : lowerTable.all
          (fun r => lowerTable.all (fun q => !(q.1 == r.2))) = true := by decide
      rw [List.all_eq_true] at hall
      have h2 := hall p hmem
      rw [List.all_eq_true] at h2
      have h3 := h2 q hq
      simp only [Bool.not_eq_eq_eq_not, Bool.not_true] at h3
      simp [h3]
    rw [hnone]

lemma pyIsWord_toNat_lt {c : Char} (h : pyIsWord c = true) : c.toNat < 192 := by
  simp only [pyIsWord, Bool.or_eq_true, Bool.and_eq_true, decide_eq_true_eq,
    Nat.beq_eq_true_eq] at h
  omega

lemma nfdChar_eq_self {c : Char} (h : c.toNat < 192) : nfdChar c = [c] := by
  unfold nfdChar
  cases hf : nfdTable.find? (fun p => p.1 == c) with
  | none => rfl
  | some p =>
    exfalso
    have hmem := List.mem_of_find?_eq_some hf
    have hbeq := List.find?_some hf
    have hpc : p.1 = c := by simpa using hbeq
    have hall : nfdTable.all (fun p => 192 ≤ p.1.toNat) = true := by decide
    rw [List.all_eq_true] at hall
    have h2 := hall p hmem
    simp only [decide_eq_true_eq] at h2
    rw [hpc] at h2
    omega

lemma isMn_eq_false {c : Char} (h : c.toNat < 192) : isMn c = false := by
  cases hm : isMn c with
  | false => rfl
  | true =>
    exfalso
    have hmem : c ∈ combiningMarks := by
      simpa [isMn, List.contains_iff_exists_mem_beq] using hm
    have hall : combiningMarks.all (fun m => 192 ≤ m.toNat) = true := by decide
    rw [List.all_eq_true] at hall
    have h2 := hall c hmem
    simp only [decide_eq_true_eq] at h2
    omega

/-! ### Idempotence of normalization (claim C6) -/

lemma flatMap_nfd_eq_self {m : List Char} (h : ∀ c ∈ m, nfdChar c = [c]) :
    m.flatMap nfdChar = m := by
  induction m with
  | nil => rfl
  | cons c cs ih =>
    rw [List.flatMap_cons, h c (List.mem_cons_self c cs),
      ih (fun x hx => h x (List.mem_cons_of_mem c hx))]
    rfl

lemma map_eq_self {f : Char → Char} {m : List Char} (h : ∀ c ∈ m, f c = c) :
    m.map f = m := by
  induction m with
  | nil => rfl
  | cons c cs ih =>
    rw [List.map_cons, h c (List.mem_cons_self c cs),
      ih (fun x hx => h x (List.mem_cons_of_mem c hx))]

/-- Every character of a normalized character list is a fixed point of every
pipeline stage: decomposition-stable, not a combining mark, lowercase, and a
word character or whitespace. -/
lemma normalizeChars_char_good {l : List Char} {c : Char}
    (hc : c ∈ normalizeChars l) :
    nfdChar c = [c] ∧ isMn c = false ∧ pyLower c = c ∧
      (pyIsWord c || pyIsSpace c) = true := by
  unfold normalizeChars at hc
  rcases mem_joinSpace hc with h | ⟨w, hw, hcw⟩
  · subst h
    refine ⟨by decide, by decide, by decide, by decide⟩
  · have hprops := wordsAux_ne_nil_nospace (l := stage3 l)
      (fun x hx => absurd hx (List.not_mem_nil x)) hw
    have hnsp : pyIsSpace c = false := hprops.2 c hcw
    have hcl := mem_of_mem_wordsAux hw hcw
    simp only [List.not_mem_nil, or_false] at hcl
    unfold stage3 at hcl
    rcases List.mem_map.mp hcl with ⟨b, hb, hbc⟩
    cases hgood : pyIsWord b || pyIsSpace b with
    | false =>
      rw [hgood] at hbc
      simp only [Bool.false_eq_true, if_false] at hbc
      rw [← hbc] at hnsp
      simp [pyIsSpace] at hnsp
    | true =>
      rw [hgood] at hbc
      simp only [if_true] at hbc
      subst hbc
      rcases List.mem_map.mp hb with ⟨d, _, hdc⟩
      have hword : pyIsWord b = true := by
        rcases Bool.or_eq_true_iff.mp hgood with h | h
        · exact h
        · rw [h] at hnsp; cases hnsp
      have hlt : b.toNat < 192 := pyIsWord_toNat_lt hword
      refine ⟨nfdChar_eq_self hlt, isMn_eq_false hlt, ?_, by simp [hword]⟩
      rw [← hdc]
      exact pyLower_pyLower d

theorem normalizeChars_idem (l : List Char) :
    normalizeChars (normalizeChars l) = normalizeChars l := by
  have hgood := fun c hc => normalizeChars_char_good (l := l) (c := c) hc
  have hstage : stage3 (normalizeChars l) = normalizeChars l := by
    unfold stage3
    rw [flatMap_nfd_eq_self (fun c hc => (hgood c hc).1)]
    rw [List.filter_eq_self.mpr (fun c hc => by simp [(hgood c hc).2.1])]
    rw [map_eq_self (fun c hc => (hgood c hc).2.2.1)]
    exact map_eq_self (fun c hc => if_pos ((hgood c hc).2.2.2))
  show joinSpace (pyWords (stage3 (normalizeChars l))) = normalizeChars l
  rw [hstage]
  have hwords : pyWords (normalizeChars l) = pyWords (stage3 l) := by
    rw [show normalizeChars l = joinSpace (pyWords (stage3 l)) from rfl]
    exact pyWords_joinSpace _
      (fun w hw => wordsAux_ne_nil_nospace (by simp) hw)
  rw [hwords]
  rfl

/-- C6: text normalization is idempotent, and accent-insensitive in the
sense of the specification example `normalize("É") == normalize("e")`. -/
theorem c6_normalize_idempotent_accent_insensitive :
    (∀ x : String, normalize_text (normalize_text x) = normalize_text x) ∧
    normalize_text "É" = normalize_text "e" := by
  constructor
  · intro x
    by_cases hx : x = ""
    · subst hx; rfl
    · simp only [normalize_text, if_neg hx]
      by_cases h2 : String.mk (normalizeChars x.data) = ""
      · rw [if_pos h2, h2]
      · rw [if_neg h2]
        exact congrArg String.mk (normalizeChars_idem x.data)
  · decide

/-! ### Taxonomy keyword index and classifier -/

/-- Label triple `(area, subarea, topic)` as appended by
`_build_keyword_map`: the area is always a plain string, subarea and topic
may be absent (`None`). -/
abbrev LabelTriple := String × Option String × Option String

/-- Ordered-dictionary append used by `defaultdict(list)` in
`_build_keyword_map`: appends the triple to the list at key `w`, creating
the key at the end on first use (Python dicts preserve insertion order). -/
def kmAppend (m : List (String × List LabelTriple)) (w : String)
    (t : LabelTriple) : List (String × List LabelTriple) :=
  match m with
  | [] => [(w, [t])]
  | (k, v) :: rest =>
    if k = w then (k, v ++ [t]) :: rest else (k, v) :: kmAppend rest w t

/-- Content under a taxonomy area: either a mapping `subarea -> topics` or
a non-dict value (skipped by the builder); topic lists hold only string
entries, matching the `isinstance(topic, str)` filter. -/
inductive TaxContent where
  | dict (subs : List (String × List String))
  | other
deriving DecidableEq

abbrev Taxonomy := List (String × TaxContent)

/-- Words of the normalization of `s` that are longer than 2 characters
(`if len(word) > 2`), as used by `_build_keyword_map`. -/
def keywordWords (s : String) : List String :=
  ((pyWords (normalize_text s).data).filter (fun w => 2 < w.length)).map
    String.mk

/-- Model of `CACDTaxonomyAnalyzer._build_keyword_map`. -/
def build_keyword_map (tax : Taxonomy) : List (String × List LabelTriple) :=
  tax.foldl (fun m (p : String × TaxContent) =>
    let m1 := (keywordWords p.1).foldl
      (fun m w => kmAppend m w (p.1, none, none)) m
    match p.2 with
    | .other => m1
    | .dict subs =>
      subs.foldl (fun m (q : String × List String) =>
        let m2 := (keywordWords q.1).foldl
          (fun m w => kmAppend m w (p.1, some q.1, none)) m
        q.2.foldl (fun m topic =>
          (keywordWords topic).foldl
            (fun m w => kmAppend m w (p.1, some q.1, some topic)) m) m2) m1) []

/-- Match-count accumulator keyed by label triple, modelling
`defaultdict(int)` with Python dict insertion order. -/
def bumpMatch (m : List (LabelTriple × Nat)) (k : LabelTriple) :
    List (LabelTriple × Nat) :=
  match m with
  | [] => [(k, 1)]
  | (q, v) :: rest =>
    if q = k then (q, v + 1) :: rest else (q, v) :: bumpMatch rest k

/-- Processing of one word of the input inside `classify_text`: if the word
is a key of the keyword map, count one match for each triple it points to. -/
def wordStep (kmap : List (String × List LabelTriple))
    (m : List (LabelTriple × Nat)) (w : String) : List (LabelTriple × Nat) :=
  match kmap.find? (fun p => p.1 == w) with
  | none => m
  | some p => p.2.foldl (fun m t => bumpMatch m t) m

/-- Match counting over all words of the input, in word order. -/
def accumulateMatches (kmap : List (String × List LabelTriple))
    (words : List String) : List (LabelTriple × Nat) :=
  words.foldl (wordStep kmap) []

/-- Model of Python `max(items, key=lambda x: x[1])`: returns the first
item whose count is maximal (a later item replaces the current best only on
a strictly greater count). -/
def maxBySnd (x : LabelTriple × Nat) :
    List (LabelTriple × Nat) → LabelTriple × Nat
  | [] => x
  | y :: ys => maxBySnd (if y.2 > x.2 then y else x) ys

/-- Normalization of the stripped concatenation `f"{title} {text}"`. -/
def classifyNormalized (text title : String) : String :=
  normalize_text (pyStripS (title ++ " " ++ text))

/-- Word list `normalized_text.split()` used by `classify_text`. -/
def classifyWords (text title : String) : List String :=
  (pyWords (classifyNormalized text title).data).map String.mk

/-- Model of `CACDTaxonomyAnalyzer.classify_text`; floats are rationals. -/
def classify_text (kmap : List (String × List LabelTriple))
    (text : String) (title : String := "") :
    Option String × Option String × Option String × ℚ :=
  let normalized := classifyNormalized text title
  if normalized = "" then (none, none, none, 0)
  else
    let words := classifyWords text title
    match accumulateMatches kmap words with
    | [] => (none, none, none, 0)
    | x :: xs =>
      let best := maxBySnd x xs
      let confidence : ℚ :=
        min ((best.2 : ℚ) / max ((words.length : ℚ) * (1/10)) 1) 1
      (some best.1.1, best.1.2.1, best.1.2.2, confidence)

/-- Highest match count appearing in a match list. -/
def maxCount (l : List (LabelTriple × Nat)) : Nat :=
  l.foldl (fun a p => max a p.2) 0

/-! ### Lemmas about the classifier (claim C3) -/

lemma maxBySnd_snd (xs : List (LabelTriple × Nat)) :
    ∀ x, (maxBySnd x xs).2 = xs.foldl (fun a p => max a p.2) x.2 := by
  induction xs with
  | nil => intro x; rfl
  | cons y ys ih =>
    intro x
    show (maxBySnd (if y.2 > x.2 then y else x) ys).2 =
      List.foldl (fun a p => max a p.2) (max x.2 y.2) ys
    rw [ih]
    congr 1
    by_cases h : y.2 > x.2
    · rw [if_pos h]; exact (max_eq_right (le_of_lt h)).symm
    · rw [if_neg h]; exact (max_eq_left (not_lt.mp h)).symm

lemma maxBySnd_eq_maxCount (x : LabelTriple × Nat)
    (xs : List (LabelTriple × Nat)) :
    (maxBySnd x xs).2 = maxCount (x :: xs) := by
  rw [maxBySnd_snd]
  show xs.foldl (fun a p => max a p.2) x.2 =
    xs.foldl (fun a p => max a p.2) (max 0 x.2)
  simp

lemma bump_ne_nil (m : List (LabelTriple × Nat)) (k : LabelTriple) :
    bumpMatch m k ≠ [] := by
  cases m with
  | nil => simp [bumpMatch]
  | cons q rest =>
    simp only [bumpMatch]
    by_cases h : q.1 = k <;> simp [h]

lemma foldl_bump_ne_nil (ts : List LabelTriple) :
    ∀ m : List (LabelTriple × Nat), m ≠ [] →
      ts.foldl (fun m t => bumpMatch m t) m ≠ [] := by
  induction ts with
  | nil => intro m h; exact h
  | cons t ts ih =>
    intro m _
    rw [List.foldl_cons]
    exact ih (bumpMatch m t) (bump_ne_nil m t)

lemma foldl_wordStep_eq_nil {kmap : List (String × List LabelTriple)}
    (hne : ∀ p ∈ kmap, p.2 ≠ []) :
    ∀ (words : List String) (m : List (LabelTriple × Nat)),
      words.foldl (wordStep kmap) m = [] →
      m = [] ∧ ∀ w ∈ words, kmap.find? (fun p => p.1 == w) = none := by
  intro words
  induction words with
  | nil => intro m h; exact ⟨h, by simp⟩
  | cons w ws ih =>
    intro m h
    rw [List.foldl_cons] at h
    obtain ⟨hstep, hrest⟩ := ih (wordStep kmap m w) h
    unfold wordStep at hstep
    cases hf : kmap.find? (fun p => p.1 == w) with
    | none =>
      rw [hf] at hstep
      refine ⟨hstep, fun x hx => ?_⟩
      rcases List.mem_cons.mp hx with h1 | h1
      · subst h1; exact hf
      · exact hrest x h1
    | some p =>
      exfalso
      rw [hf] at hstep
      have hstep2 : p.2.foldl (fun m t => bumpMatch m t) m = [] := hstep
      have hpne := hne p (List.mem_of_find?_eq_some hf)
      cases hp2 : p.2 with
      | nil => exact hpne hp2
      | cons t ts =>
        rw [hp2, List.foldl_cons] at hstep2
        exact foldl_bump_ne_nil ts _ (bump_ne_nil m t) hstep2

lemma foldl_wordStep_all_none {kmap : List (String × List LabelTriple)} :
    ∀ (words : List String) (m : List (LabelTriple × Nat)),
      (∀ w ∈ words, kmap.find? (fun p => p.1 == w) = none) →
      words.foldl (wordStep kmap) m = m := by
  intro words
  induction words with
  | nil => intro m _; rfl
  | cons w ws ih =>
    intro m h
    rw [List.foldl_cons]
    have hw : wordStep kmap m w = m := by
      unfold wordStep
      rw [h w (List.mem_cons_self w ws)]
    rw [hw]
    exact ih m (fun x hx => h x (List.mem_cons_of_mem w hx))

/-- C3: the classifier confidence equals
`min(bestScore / max(0.1 * wordCount, 1), 1.0)` whenever any match exists,
always lies in `[0, 1]`, and the result is all-null labels with confidence
`0` exactly when the normalized input is empty or no word of the input
occurs in the keyword index.  The hypothesis that every index entry carries
at least one label triple is an invariant of `_build_keyword_map`, proved
below as `build_keyword_map_values_ne_nil`. -/
theorem c3_classifier_confidence (kmap : List (String × List LabelTriple))
    (hne : ∀ p ∈ kmap, p.2 ≠ []) (text title : String) :
    (0 ≤ (classify_text kmap text title).2.2.2 ∧
      (classify_text kmap text title).2.2.2 ≤ 1) ∧
    (accumulateMatches kmap (classifyWords text title) ≠ [] →
      (classify_text kmap text title).2.2.2 =
        min ((maxCount (accumulateMatches kmap (classifyWords text title)) : ℚ) /
          max (((classifyWords text title).length : ℚ) * (1/10)) 1) 1) ∧
    (((classify_text kmap text title).1 = none ∧
      (classify_text kmap text title).2.1 = none ∧
      (classify_text kmap text title).2.2.1 = none ∧
      (classify_text kmap text title).2.2.2 = 0) ↔
      (classifyNormalized text title = "" ∨
        ∀ w ∈ classifyWords text title,
          kmap.find? (fun p => p.1 == w) = none)) := by
  have hd : (1 : ℚ) ≤ max (((classifyWords text title).length : ℚ) * (1/10)) 1 :=
    le_max_right _ _
  have hd0 : (0 : ℚ) < max (((classifyWords text title).length : ℚ) * (1/10)) 1 :=
    lt_of_lt_of_le one_pos hd
  by_cases hnorm : classifyNormalized text title = ""
  · have hwords : classifyWords text title = [] := by
      unfold classifyWords
      rw [hnorm]
      rfl
    have hr : classify_text kmap text title = (none, none, none, 0) := by
      unfold classify_text
      rw [if_pos hnorm]
    rw [hr, hwords]
    refine ⟨⟨le_refl 0, zero_le_one⟩, ?_, ?_⟩
    · intro h
      exact absurd rfl h
    · simp
  · cases hms : accumulateMatches kmap (classifyWords text title) with
    | nil =>
      have hr : classify_text kmap text title = (none, none, none, 0) := by
        unfold classify_text
        rw [if_neg hnorm]
        show (match accumulateMatches kmap (classifyWords text title) with
          | [] => ((none : Option String), (none : Option String),
              (none : Option String), (0 : ℚ))
          | x :: xs => _) = _
        rw [hms]
      rw [hr]
      refine ⟨⟨le_refl 0, zero_le_one⟩, ?_, ?_⟩
      · intro h
        exact absurd rfl h
      · constructor
        · intro _
          right
          exact (foldl_wordStep_eq_nil hne _ [] hms).2
        · intro _
          exact ⟨rfl, rfl, rfl, rfl⟩
    | cons x xs =>
      have hr : classify_text kmap text title =
          (some (maxBySnd x xs).1.1, (maxBySnd x xs).1.2.1,
            (maxBySnd x xs).1.2.2,
            min (((maxBySnd x xs).2 : ℚ) /
              max (((classifyWords text title).length : ℚ) * (1/10)) 1) 1) := by
        unfold classify_text
        rw [if_neg hnorm]
        show (match accumulateMatches kmap (classifyWords text title) with
          | [] => ((none : Option String), (none : Option String),
              (none : Option String), (0 : ℚ))
          | x :: xs => (some (maxBySnd x xs).1.1, (maxBySnd x xs).1.2.1,
              (maxBySnd x xs).1.2.2,
              min (((maxBySnd x xs).2 : ℚ) /
                max (((classifyWords text title).length : ℚ) * (1/10)) 1) 1)) = _
        rw [hms]
      rw [hr]
      refine ⟨⟨?_, min_le_right _ _⟩, ?_, ?_⟩
      · exact le_min (div_nonneg (Nat.cast_nonneg _) (le_of_lt hd0)) zero_le_one
      · intro _
        rw [maxBySnd_eq_maxCount]
      · constructor
        · intro h
          exact absurd h.1 (by simp)
        · intro h
          rcases h with h | h
          · exact absurd h hnorm
          · exfalso
            have h2 : accumulateMatches kmap (classifyWords text title) = [] :=
              foldl_wordStep_all_none _ [] h
            rw [hms] at h2
            exact absurd h2 (by simp)

lemma foldl_preserve {α : Type _} {β : Type _} {P : α → Prop} {f : α → β → α}
    (hf : ∀ a b, P a → P (f a b)) :
    ∀ (l : List β) (a : α), P a → P (l.foldl f a) := by
  intro l
  induction l with
  | nil => intro a h; exact h
  | cons b bs ih => intro a h; exact ih (f a b) (hf a b h)

lemma kmAppend_values_ne_nil {m : List (String × List LabelTriple)}
    (h : ∀ p ∈ m, p.2 ≠ []) (w : String) (t : LabelTriple) :
    ∀ p ∈ kmAppend m w t, p.2 ≠ [] := by
  induction m with
  | nil =>
    intro p hp
    simp only [kmAppend, List.mem_singleton] at hp
    subst hp
    simp
  | cons q rest ih =>
    intro p hp
    simp only [kmAppend] at hp
    by_cases hq : q.1 = w
    · rw [if_pos hq] at hp
      rcases List.mem_cons.mp hp with h1 | h1
      · subst h1; simp
      · exact h p (List.mem_cons_of_mem q h1)
    · rw [if_neg hq] at hp
      rcases List.mem_cons.mp hp with h1 | h1
      · subst h1; exact h q (List.mem_cons_self q rest)
      · exact ih (fun x hx => h x (List.mem_cons_of_mem q hx)) p h1

lemma foldl_kmAppend_ne_nil (t0 : LabelTriple) :
    ∀ (ws : List String) (m : List (String × List LabelTriple)),
      (∀ p ∈ m, p.2 ≠ []) →
      ∀ p ∈ ws.foldl (fun m w => kmAppend m w t0) m, p.2 ≠ [] := by
  intro ws
  induction ws with
  | nil => intro m h; exact h
  | cons w ws ih =>
    intro m h
    rw [List.foldl_cons]
    exact ih _ (kmAppend_values_ne_nil h w t0)

/-- Every entry of a built keyword map carries at least one label triple:
keys are only ever created by appending a triple. -/
lemma build_keyword_map_values_ne_nil (tax : Taxonomy) :
    ∀ p ∈ build_keyword_map tax, p.2 ≠ [] := by
  unfold build_keyword_map
  refine foldl_preserve
    (P := fun m : List (String × List LabelTriple) => ∀ p ∈ m, p.2 ≠ [])
    ?_ tax []
    (fun p hp => absurd hp (List.not_mem_nil p))
  intro m pc hm
  obtain ⟨a, c⟩ := pc
  dsimp only
  have h1 := foldl_kmAppend_ne_nil (a, none, none) (keywordWords a) m hm
  cases c with
  | other => exact h1
  | dict subs =>
    refine foldl_preserve
      (P := fun m : List (String × List LabelTriple) => ∀ p ∈ m, p.2 ≠ [])
      ?_ subs _ h1
    intro m2 q hm2
    dsimp only
    have h2 := foldl_kmAppend_ne_nil (a, some q.1, none) (keywordWords q.1)
      m2 hm2
    refine foldl_preserve
      (P := fun m : List (String × List LabelTriple) => ∀ p ∈ m, p.2 ≠ [])
      ?_ q.2 _ h2
    intro m3 topic hm3
    exact foldl_kmAppend_ne_nil (a, some q.1, some topic) (keywordWords topic)
      m3 hm3

/-- Keyword map built from the one-area taxonomy `{"Geografia": {}}`. -/
def kmapWitness : List (String × List LabelTriple) :=
  build_keyword_map [("Geografia", TaxContent.dict [])]

/-- Witness for C3 at the concrete keyword map `kmapWitness` and the input
text `"geografia"`. -/
theorem c3_classifier_confidence_witness :
    (0 ≤ (classify_text kmapWitness "geografia" "").2.2.2 ∧
      (classify_text kmapWitness "geografia" "").2.2.2 ≤ 1) ∧
    (accumulateMatches kmapWitness (classifyWords "geografia" "") ≠ [] →
      (classify_text kmapWitness "geografia" "").2.2.2 =
        min ((maxCount (accumulateMatches kmapWitness
            (classifyWords "geografia" "")) : ℚ) /
          max (((classifyWords "geografia" "").length : ℚ) * (1/10)) 1) 1) ∧
    (((classify_text kmapWitness "geografia" "").1 = none ∧
      (classify_text kmapWitness "geografia" "").2.1 = none ∧
      (classify_text kmapWitness "geografia" "").2.2.1 = none ∧
      (classify_text kmapWitness "geografia" "").2.2.2 = 0) ↔
      (classifyNormalized "geografia" "" = "" ∨
        ∀ w ∈ classifyWords "geografia" "",
          kmapWitness.find? (fun p => p.1 == w) = none)) :=
  c3_classifier_confidence kmapWitness (by decide) "geografia" ""

/-! ### Configuration, Python values, notes -/

/-- Model of the configuration dictionary (`_default_config` keys). -/
structure Config where
  min_content_length : Nat
  max_tags : Nat
  relevancia_threshold : ℚ
  conexoes_max : Nat
  feedback_file : String
  cache_file : String
  backup_original : Bool
deriving DecidableEq

/-- Model of `CACDMetadataAnalyzer._default_config`. -/
def default_config : Config :=
  { min_content_length := 50, max_tags := 5, relevancia_threshold := 3/10,
    conexoes_max := 3, feedback_file := "cacd_feedback.md",
    cache_file := ".cacd_cache.json", backup_original := true }

/-- Values stored in a note header (the YAML mapping): the program reads
and writes `None`, strings, integers, booleans and lists of strings. -/
inductive PyVal where
  | vNone
  | vStr (s : String)
  | vInt (n : Int)
  | vBool (b : Bool)
  | vList (l : List String)
deriving DecidableEq

/-- Python truthiness of a header value. -/
def PyVal.truthy : PyVal → Bool
  | .vNone => false
  | .vStr s => s != ""
  | .vInt n => n != 0
  | .vBool b => b
  | .vList l => !l.isEmpty

/-- File path split into stem and suffix; `Path.with_suffix` replaces the
suffix (all note paths in scope carry a single suffix such as `.md`). -/
structure MPath where
  stem : String
  suffix : String
deriving DecidableEq

def MPath.with_suffix (p : MPath) (e : String) : MPath := ⟨p.stem, e⟩

/-- Model of the `Note` dataclass (the unused timestamp is omitted). -/
structure Note where
  id : String
  title : String
  content : String
  frontmatter : List (String × PyVal)
  file_path : MPath
deriving DecidableEq

/-- Lookup in a header mapping (`k in fm` and `fm[k]`). -/
def fmFind (fm : List (String × PyVal)) (k : String) : Option PyVal :=
  (fm.find? (fun p => p.1 == k)).map (fun p => p.2)

/-- Model of `dict.get(k)`: `None` when the key is absent. -/
def fmGet (fm : List (String × PyVal)) (k : String) : PyVal :=
  (fmFind fm k).getD PyVal.vNone

/-- Model of `CACDMetadataAnalyzer._has_complete_metadata`:
`all(field in fm and fm[field] for field in ['area', 'relevancia_cacd'])`. -/
def has_complete_metadata (note : Note) : Bool :=
  ["area", "relevancia_cacd"].all (fun f =>
    (fmFind note.frontmatter f).isSome && (fmGet note.frontmatter f).truthy)

/-- Python truthiness of an optional string (`None` and `""` are falsy). -/
def optStrTruthy : Option String → Bool
  | none => false
  | some s => s != ""

/-! ### Relevance scorer (claim C4) -/

def high_priority_areas : List String :=
  ["Política Internacional", "História do Brasil", "DIREITO", "ECONOMIA",
   "Geografia"]

/-- Model of `CACDMetadataAnalyzer._calculate_relevancia_cacd`; the guard
`if not area or confidence < threshold` uses Python truthiness (`None` or
the empty string are falsy), and in the scored branch the area is the
(necessarily present) unwrapped string. -/
def calculate_relevancia_cacd (cfg : Config) (note : Note)
    (area : Option String) (confidence : ℚ) : Int :=
  if optStrTruthy area = false ∨ confidence < cfg.relevancia_threshold then 1
  else
    let s1 : Int := 3
    let s2 : Int := if area.getD "" ∈ high_priority_areas then s1 + 1 else s1
    let s3 : Int :=
      if confidence > 7/10 then s2 + 1
      else if confidence < 4/10 then s2 - 1 else s2
    let s4 : Int :=
      if note.content.length > 1000 then s3 + 1
      else if note.content.length < 200 then s3 - 1 else s3
    max 1 (min 5 s4)

/-- C4: the relevance scorer returns 1 when the area is absent (Python
falsy) or the confidence is below the configured threshold; otherwise it
returns the single final clamp to `[1, 5]` of base 3 plus the three
independent additive adjustments (priority area, confidence, content
length); and the result always lies in `[1, 5]`. -/
theorem c4_relevance_score (cfg : Config) (note : Note)
    (area : Option String) (confidence : ℚ) :
    calculate_relevancia_cacd cfg note area confidence =
      (if optStrTruthy area = false ∨ confidence < cfg.relevancia_threshold
        then 1
        else max 1 (min 5 (3 +
          (if area.getD "" ∈ high_priority_areas then (1 : Int) else 0) +
          (if confidence > 7/10 then (1 : Int)
            else if confidence < 4/10 then -1 else 0) +
          (if note.content.length > 1000 then (1 : Int)
            else if note.content.length < 200 then -1 else 0)))) ∧
    1 ≤ calculate_relevancia_cacd cfg note area confidence ∧
    calculate_relevancia_cacd cfg note area confidence ≤ 5 := by
  unfold calculate_relevancia_cacd
  by_cases h : optStrTruthy area = false ∨ confidence < cfg.relevancia_threshold
  · rw [if_pos h, if_pos h]
    exact ⟨rfl, le_refl 1, by norm_num⟩
  · rw [if_neg h, if_neg h]
    refine ⟨?_, ?_, ?_⟩
    · by_cases h1 : area.getD "" ∈ high_priority_areas <;>
        by_cases h2 : confidence > 7/10 <;>
        by_cases h3 : confidence < 4/10 <;>
        by_cases h4 : note.content.length > 1000 <;>
        by_cases h5 : note.content.length < 200 <;>
        simp only [h1, h2, h3, h4, h5, if_true, if_false] <;>
        norm_num
    · exact le_max_left 1 _
    · exact max_le (by norm_num) (min_le_left 5 _)

/-! ### Tag generator (claim C7) -/

/-- Area-specific candidate tags of `CACDTagGenerator.__init__`. -/
def area_tags : List (String × List String) :=
  [("Língua Portuguesa",
    ["gramática", "ortografia", "redação", "literatura", "linguística"]),
   ("Língua Inglesa",
    ["inglês", "tradução", "gramática-inglesa", "vocabulário"]),
   ("História do Brasil",
    ["brasil", "colônia", "império", "república", "política-brasileira"]),
   ("História Mundial",
    ["internacional", "guerra", "revolução", "imperialismo", "ideologia"]),
   ("Política Internacional",
    ["diplomacia", "relações-internacionais", "onu", "mercosul",
     "geopolítica"]),
   ("Geografia",
    ["território", "população", "economia-espacial", "meio-ambiente",
     "urbanização"]),
   ("ECONOMIA",
    ["macroeconomia", "microeconomia", "política-fiscal",
     "comércio-internacional", "desenvolvimento"]),
   ("DIREITO",
    ["constitucional", "administrativo", "internacional-público",
     "tratados", "soberania"]),
   ("LÍNGUA ESPANHOLA", ["espanhol", "tradução-espanhol", "america-latina"]),
   ("LÍNGUA FRANCESA", ["francês", "tradução-francês", "francofonia"])]

/-- Keyword-to-tag table of `CACDTagGenerator.__init__` (insertion order). -/
def keyword_tags : List (String × String) :=
  [("constituição", "constitucional"),
   ("mercosul", "integração-regional"),
   ("onu", "multilateralismo"),
   ("guerra", "conflitos"),
   ("paz", "paz-segurança"),
   ("economia", "análise-econômica"),
   ("política", "ciência-política"),
   ("diplomacia", "ação-diplomática"),
   ("território", "geografia-política"),
   ("população", "demografia"),
   ("meio ambiente", "sustentabilidade"),
   ("brasil", "brasil-estudos"),
   ("direitos humanos", "direitos-humanos"),
   ("comércio", "comércio-internacional")]

/-- Substring test (Python `needle in haystack` for strings). -/
def containsSub (needle : List Char) : List Char → Bool
  | [] => needle.isPrefixOf []
  | c :: cs => needle.isPrefixOf (c :: cs) || containsSub needle cs

/-- Word-boundary match of one alternative at the current position (for
the pattern `\b(...)\b`): the previous character (if any) is not a word
character, the alternative is a prefix here, and the character following
it (if any) is not a word character. -/
def wbMatchAt (w : List Char) (prev : Option Char) (l : List Char) : Bool :=
  w.isPrefixOf l &&
  (match prev with | none => true | some p => !pyIsWord p) &&
  (match (l.drop w.length).head? with
   | none => true
   | some n => !pyIsWord n)

/-- Scanning search modelling `re.search` of `\b(w1|w2|...)\b`. -/
def wbSearch (alts : List (List Char)) : Option Char → List Char → Bool
  | prev, [] => alts.any (fun w => wbMatchAt w prev [])
  | prev, c :: cs =>
    alts.any (fun w => wbMatchAt w prev (c :: cs)) || wbSearch alts (some c) cs

def hasWordMatch (alts : List String) (hay : List Char) : Bool :=
  wbSearch (alts.map String.data) none hay

/-- Insertion-ordered model of `set.add` followed by `list(...)`: the
CPython set iteration order is unspecified, and the claims below depend
only on membership and size. -/
def addTag (l : List String) (t : String) : List String :=
  if t ∈ l then l else l ++ [t]

/-- Model of `CACDTagGenerator.generate_tags`.  The final `[:5]` is the
literal constant written in the source (`list(tags)[:5]`). -/
def generate_tags (text title : String) (area : Option String) :
    List String :=
  let combined := (title.data ++ ' ' :: text.data).map pyLower
  let t1 : List String :=
    match area with
    | none => []
    | some a =>
      if a = "" then []
      else
        match area_tags.find? (fun p => p.1 == a) with
        | none => []
        | some p =>
          (p.2.take 2).foldl (fun acc tag =>
            if (pySplitSep tag "-").any
                (fun word => containsSub word.data combined) then
              addTag acc tag
            else acc) []
  let t2 := keyword_tags.foldl (fun acc kv =>
    if containsSub kv.1.data combined then addTag acc kv.2 else acc) t1
  let t3 := if hasWordMatch ["tratado", "acordo", "convenção"] combined then
      addTag t2 "instrumentos-jurídicos" else t2
  let t4 := if hasWordMatch ["guerra", "conflito", "paz"] combined then
      addTag t3 "segurança-internacional" else t3
  let t5 :=
    if hasWordMatch ["desenvolvimento", "crescimento", "econômico"]
        combined then
      addTag t4 "desenvolvimento-econômico" else t4
  t5.take 5

/-- Configuration with a tag limit below the hard-coded truncation. -/
def cfgMaxTags1 : Config := { default_config with max_tags := 1 }

/-- C7 counterexample: with `max_tags = 1` configured, `generate_tags`
still returns 2 tags for the text `"mercosul onu"` — the configured
`max_tags` entry is never consulted by the tag generator. -/
theorem c7_counterexample :
    cfgMaxTags1.max_tags < (generate_tags "mercosul onu" "" none).length := by
  decide

/-- C7 amended: the tag list is truncated to the literal bound 5 (the
default value of `max_tags`), for every input and independently of the
configuration. -/
theorem c7_tags_bounded (text title : String) (area : Option String) :
    (generate_tags text title area).length ≤ 5 := by
  unfold generate_tags
  simp only [List.length_take]
  exact min_le_left 5 _

/-! ### Connection finder (claims C8, C10) -/

/-- Injection of the classifier label results into header values, so that
Python `frontmatter.get(k) == label` is structural equality. -/
def optToPy : Option String → PyVal
  | none => PyVal.vNone
  | some s => PyVal.vStr s

/-- Loop of `_suggest_connections`: walks the note store in order,
skipping the note itself, collecting titles of notes whose header area or
subarea equals the classified one, and breaking once the configured
maximum is reached (the bound is checked after appending).  The locally
computed `note_words` set of the source is unused there and omitted. -/
def connGo (mx : Nat) (nid : String) (area subarea : Option String) :
    List Note → List String → List String
  | [], acc => acc
  | n :: ns, acc =>
    if n.id = nid then connGo mx nid area subarea ns acc
    else if fmGet n.frontmatter "area" = optToPy area ∨
        fmGet n.frontmatter "subarea" = optToPy subarea then
      let acc2 := acc ++ [n.title]
      if mx ≤ acc2.length then acc2
      else connGo mx nid area subarea ns acc2
    else connGo mx nid area subarea ns acc

/-- Model of `CACDMetadataAnalyzer._suggest_connections`. -/
def suggest_connections (cfg : Config) (store : List Note) (note : Note)
    (area subarea : Option String) : List String :=
  connGo cfg.conexoes_max note.id area subarea store []

/-- Filter predicate equivalent to one loop iteration collecting a note. -/
def connQualifies (nid : String) (area subarea : Option String)
    (n : Note) : Bool :=
  decide (n.id ≠ nid ∧ (fmGet n.frontmatter "area" = optToPy area ∨
    fmGet n.frontmatter "subarea" = optToPy subarea))

lemma connGo_eq (mx : Nat) (nid : String) (area subarea : Option String) :
    ∀ (l : List Note) (acc : List String), acc.length < mx →
      connGo mx nid area subarea l acc =
        acc ++ (((l.filter (connQualifies nid area subarea)).map
          Note.title).take (mx - acc.length)) := by
  intro l
  induction l with
  | nil => intro acc h; simp [connGo]
  | cons n ns ih =>
    intro acc h
    simp only [connGo]
    by_cases hid : n.id = nid
    · rw [if_pos hid]
      have hq : connQualifies nid area subarea n = false := by
        simp [connQualifies, hid]
      rw [ih acc h, List.filter_cons_of_neg (by simp [hq])]
    · rw [if_neg hid]
      by_cases hq2 : fmGet n.frontmatter "area" = optToPy area ∨
          fmGet n.frontmatter "subarea" = optToPy subarea
      · rw [if_pos hq2]
        have hq : connQualifies nid area subarea n = true := by
          simp only [connQualifies, decide_eq_true_eq]
          exact ⟨hid, hq2⟩
        rw [List.filter_cons_of_pos hq]
        by_cases hbrk : mx ≤ (acc ++ [n.title]).length
        · rw [if_pos hbrk]
          have hlen : (acc ++ [n.title]).length = acc.length + 1 := by simp
          have hmx : mx - acc.length = 1 := by omega
          rw [hmx, List.map_cons]
          simp
        · rw [if_neg hbrk]
          have h2 : (acc ++ [n.title]).length < mx := by
            rw [Nat.not_le] at hbrk
            exact hbrk
          rw [ih _ h2]
          have hlen : (acc ++ [n.title]).length = acc.length + 1 := by simp
          have hmx : mx - acc.length = (mx - (acc ++ [n.title]).length) + 1 := by
            omega
          rw [hmx, List.map_cons, List.take_succ_cons]
          simp
      · rw [if_neg hq2]
        have hq : connQualifies nid area subarea n = false := by
          simp [connQualifies, hq2]
        rw [ih acc h, List.filter_cons_of_neg (by simp [hq])]

lemma connGo_extends (mx : Nat) (nid : String) (area subarea : Option String) :
    ∀ (l : List Note) (acc : List String),
      ∃ e, connGo mx nid area subarea l acc = acc ++ e := by
  intro l
  induction l with
  | nil => intro acc; exact ⟨[], by simp [connGo]⟩
  | cons n ns ih =>
    intro acc
    simp only [connGo]
    by_cases hid : n.id = nid
    · rw [if_pos hid]; exact ih acc
    · rw [if_neg hid]
      by_cases hq : fmGet n.frontmatter "area" = optToPy area ∨
          fmGet n.frontmatter "subarea" = optToPy subarea
      · rw [if_pos hq]
        by_cases hbrk : mx ≤ (acc ++ [n.title]).length
        · rw [if_pos hbrk]; exact ⟨[n.title], rfl⟩
        · rw [if_neg hbrk]
          obtain ⟨e, he⟩ := ih (acc ++ [n.title])
          exact ⟨n.title :: e, by rw [he]; simp⟩
      · rw [if_neg hq]; exact ih acc

lemma connGo_collects (mx : Nat) (nid : String)
    (area subarea : Option String) :
    ∀ (l : List Note) (acc : List String) (n : Note), n ∈ l →
      n.id ≠ nid →
      (fmGet n.frontmatter "area" = optToPy area ∨
        fmGet n.frontmatter "subarea" = optToPy subarea) →
      n.title ∈ connGo mx nid area subarea l acc ∨
        mx ≤ (connGo mx nid area subarea l acc).length := by
  intro l
  induction l with
  | nil => intro acc n hn; simp at hn
  | cons n0 ns ih =>
    intro acc n hn hid hq
    simp only [connGo]
    rcases List.mem_cons.mp hn with heq | hmem
    · subst heq
      rw [if_neg hid, if_pos hq]
      by_cases hbrk : mx ≤ (acc ++ [n.title]).length
      · rw [if_pos hbrk]
        exact Or.inl (by simp)
      · rw [if_neg hbrk]
        obtain ⟨e, he⟩ :=
          connGo_extends mx nid area subarea ns (acc ++ [n.title])
        left
        rw [he]
        simp
    · by_cases hid0 : n0.id = nid
      · rw [if_pos hid0]; exact ih acc n hmem hid hq
      · rw [if_neg hid0]
        by_cases hq0 : fmGet n0.frontmatter "area" = optToPy area ∨
            fmGet n0.frontmatter "subarea" = optToPy subarea
        · rw [if_pos hq0]
          by_cases hbrk : mx ≤ (acc ++ [n0.title]).length
          · rw [if_pos hbrk]
            exact Or.inr hbrk
          · rw [if_neg hbrk]
            exact ih _ n hmem hid hq
        · rw [if_neg hq0]
          exact ih acc n hmem hid hq

/-- Two-note store exercising the connection finder. -/
def noteCx1 : Note :=
  { id := "a.md", title := "A", content := "", frontmatter := [],
    file_path := ⟨"a", ".md"⟩ }

def noteCx2 : Note :=
  { id := "b.md", title := "B", content := "",
    frontmatter := [("area", PyVal.vStr "X")], file_path := ⟨"b", ".md"⟩ }

/-- Configuration with a zero connection maximum. -/
def cfgConex0 : Config := { default_config with conexoes_max := 0 }

/-- C8 counterexample: with `conexoes_max = 0` the loop still returns one
title, because the bound is only checked after appending — the result is
not "at most the configured maximum". -/
theorem c8_counterexample :
    cfgConex0.conexoes_max <
      (suggest_connections cfgConex0 [noteCx1, noteCx2] noteCx1
        (some "X") none).length := by
  decide

/-- C8 amended: for a positive configured maximum, the connection finder
returns exactly the first `conexoes_max` titles of other notes (the note
itself excluded) whose header area or subarea equals the given one, in
store iteration order — in particular never more than `conexoes_max`. -/
theorem c8_connections (cfg : Config) (store : List Note) (note : Note)
    (area subarea : Option String) (hmx : 1 ≤ cfg.conexoes_max) :
    suggest_connections cfg store note area subarea =
      ((store.filter (connQualifies note.id area subarea)).map
        Note.title).take cfg.conexoes_max ∧
    (suggest_connections cfg store note area subarea).length ≤
      cfg.conexoes_max := by
  have h := connGo_eq cfg.conexoes_max note.id area subarea store []
    (by simpa using hmx)
  constructor
  · unfold suggest_connections
    rw [h]
    simp
  · unfold suggest_connections
    rw [h]
    simp only [List.nil_append, List.length_take, Nat.sub_zero]
    exact min_le_left _ _

/-- Witness for the amended C8 at the default configuration. -/
theorem c8_connections_witness :
    suggest_connections default_config [noteCx1, noteCx2] noteCx1
        (some "X") none =
      (([noteCx1, noteCx2].filter (connQualifies noteCx1.id (some "X")
        none)).map Note.title).take default_config.conexoes_max ∧
    (suggest_connections default_config [noteCx1, noteCx2] noteCx1
        (some "X") none).length ≤ default_config.conexoes_max :=
  c8_connections default_config [noteCx1, noteCx2] noteCx1 (some "X") none
    (by decide)

/-- C10: when the classifier produced no labels (area and subarea both
absent), every other loaded note whose header also lacks (or holds a null)
area and subarea is collected as a connection, unless the configured
maximum was already reached — absent header fields compare equal to the
absent classification labels. -/
theorem c10_connections_absent_labels (cfg : Config) (store : List Note)
    (note : Note) (n : Note) (hmem : n ∈ store) (hid : n.id ≠ note.id)
    (harea : fmGet n.frontmatter "area" = PyVal.vNone)
    (hsub : fmGet n.frontmatter "subarea" = PyVal.vNone) :
    n.title ∈ suggest_connections cfg store note none none ∨
      cfg.conexoes_max ≤
        (suggest_connections cfg store note none none).length :=
  connGo_collects cfg.conexoes_max note.id none none store [] n hmem hid
    (Or.inl (by rw [harea]; rfl))

/-- Notes without area or subarea header fields, for the C10 witness. -/
def noteC10a : Note :=
  { id := "x.md", title := "X", content := "", frontmatter := [],
    file_path := ⟨"x", ".md"⟩ }

def noteC10b : Note :=
  { id := "y.md", title := "Y", content := "",
    frontmatter := [("tags", PyVal.vList [])], file_path := ⟨"y", ".md"⟩ }

/-- Witness for C10 at a concrete two-note store. -/
theorem c10_connections_absent_labels_witness :
    noteC10b.title ∈ suggest_connections default_config
        [noteC10a, noteC10b] noteC10a none none ∨
      default_config.conexoes_max ≤
        (suggest_connections default_config [noteC10a, noteC10b] noteC10a
          none none).length :=
  c10_connections_absent_labels default_config [noteC10a, noteC10b]
    noteC10a noteC10b (by decide) (by decide) (by decide) (by decide)

/-! ### Suggestion engine (claim C5) -/

/-- Model of the `MetadataSuggestion` dataclass with the `__post_init__`
defaults applied (`tags` and `conexoes` default to empty lists). -/
structure MetadataSuggestion where
  note_id : String
  area : Option String
  subarea : Option String
  topico : Option String
  tags : List String
  relevancia_cacd : Option Int
  conexoes : List String
  confidence : ℚ
deriving DecidableEq

/-- Model of `CACDMetadataAnalyzer.analyze_note`. -/
def analyze_note (cfg : Config) (kmap : List (String × List LabelTriple))
    (store : List Note) (note : Note) : MetadataSuggestion :=
  if has_complete_metadata note then
    { note_id := note.id, area := none, subarea := none, topico := none,
      tags := [], relevancia_cacd := none, conexoes := [], confidence := 1 }
  else
    let r := classify_text kmap note.content note.title
    let tags := generate_tags note.content note.title r.1
    let relevancia := calculate_relevancia_cacd cfg note r.1 r.2.2.2
    let conexoes := suggest_connections cfg store note r.1 r.2.1
    { note_id := note.id, area := r.1, subarea := r.2.1, topico := r.2.2.1,
      tags := tags, relevancia_cacd := some relevancia,
      conexoes := conexoes, confidence := r.2.2.2 }

/-- Note/suggestion pairs emitted by `generate_feedback_file`: notes
without complete metadata whose suggestion has a truthy area.  The source
keeps a list of suggestions and re-reads each note from the store by its
id when writing the section; since store ids are unique dictionary keys,
that lookup returns the very note the suggestion was computed from, which
the pair records directly. -/
def reviewPairs (cfg : Config) (kmap : List (String × List LabelTriple))
    (store : List Note) : List (Note × MetadataSuggestion) :=
  ((store.filter (fun n => !(has_complete_metadata n))).map
    (fun n => (n, analyze_note cfg kmap store n))).filter
    (fun p => optStrTruthy p.2.area)

/-- C5: a note whose header already holds non-empty `area` and
`relevancia_cacd` short-circuits to the confidence-1.0 all-empty
suggestion, and contributes no section to a generated Review File. -/
theorem c5_complete_metadata_skip (cfg : Config)
    (kmap : List (String × List LabelTriple)) (store : List Note)
    (note : Note) (hmem : note ∈ store)
    (hc : has_complete_metadata note = true)
    (hnd : (store.map Note.id).Nodup) :
    analyze_note cfg kmap store note =
      { note_id := note.id, area := none, subarea := none, topico := none,
        tags := [], relevancia_cacd := none, conexoes := [],
        confidence := 1 } ∧
    ∀ p ∈ reviewPairs cfg kmap store,
      p.1.id ≠ note.id ∧ p.2.note_id ≠ note.id := by
  constructor
  · unfold analyze_note
    rw [if_pos hc]
  · intro p hp
    unfold reviewPairs at hp
    obtain ⟨hp1, _⟩ := List.mem_filter.mp hp
    obtain ⟨n, hn, heq⟩ := List.mem_map.mp hp1
    obtain ⟨hnstore, hninc⟩ := List.mem_filter.mp hn
    have hid : p.1.id = n.id := by rw [← heq]
    have hsid : p.2.note_id = n.id := by
      rw [← heq]
      show (analyze_note cfg kmap store n).note_id = n.id
      unfold analyze_note
      by_cases h : has_complete_metadata n = true
      · rw [if_pos h]
      · rw [if_neg h]
    have hinj := List.inj_on_of_nodup_map hnd
    constructor
    · rw [hid]
      intro hcon
      have heqn : n = note := hinj hnstore hmem hcon
      rw [heqn] at hninc
      simp [hc] at hninc
    · rw [hsid]
      intro hcon
      have heqn : n = note := hinj hnstore hmem hcon
      rw [heqn] at hninc
      simp [hc] at hninc

/-- Note with complete metadata, for the C5 witness. -/
def noteC5 : Note :=
  { id := "c.md", title := "C", content := "",
    frontmatter := [("area", PyVal.vStr "X"),
      ("relevancia_cacd", PyVal.vInt 5)],
    file_path := ⟨"c", ".md"⟩ }

/-- Witness for C5 at a concrete one-note store. -/
theorem c5_complete_metadata_skip_witness :
    analyze_note default_config [] [noteC5] noteC5 =
      { note_id := noteC5.id, area := none, subarea := none, topico := none,
        tags := [], relevancia_cacd := none, conexoes := [],
        confidence := 1 } ∧
    ∀ p ∈ reviewPairs default_config [] [noteC5],
      p.1.id ≠ noteC5.id ∧ p.2.note_id ≠ noteC5.id :=
  c5_complete_metadata_skip default_config [] [noteC5] noteC5 (by decide)
    (by decide) (by decide)

/-! ### Review File generation (`generate_feedback_file`) -/

/-- Python truthiness of an optional integer (`None` and `0` are falsy). -/
def optIntTruthy : Option Int → Bool
  | none => false
  | some n => n != 0

/-- Rendering of `f"{confidence:.2f}"`: two decimal places, rounding to
nearest (half up), which agrees with the float formatting on the values
this program produces. -/
def formatConf (q : ℚ) : String :=
  let c : Int := (200 * q.num + (q.den : Int)) / (2 * (q.den : Int))
  let ip := c / 100
  let fp := (c % 100).toNat
  toString ip ++ "." ++ (if fp < 10 then "0" ++ toString fp else toString fp)

/-- One per-note section of the Review File, exactly as written by
`generate_feedback_file` (field line plus unchecked decision line for
every truthy suggested field). -/
def mkSection (note : Note) (s : MetadataSuggestion) : String :=
  "## Nota: " ++ note.title ++ "\n" ++
  "**Arquivo:** `" ++ s.note_id ++ "`\n" ++
  "**Confiança:** " ++ formatConf s.confidence ++ "\n\n" ++
  (if optStrTruthy s.area then
    "- **Área:** " ++ s.area.getD "" ++ "\n  - Decisão: [ ]\n" else "") ++
  (if optStrTruthy s.subarea then
    "- **Subárea:** " ++ s.subarea.getD "" ++ "\n  - Decisão: [ ]\n"
   else "") ++
  (if optStrTruthy s.topico then
    "- **Tópico:** " ++ s.topico.getD "" ++ "\n  - Decisão: [ ]\n" else "") ++
  (if !s.tags.isEmpty then
    "- **Tags:** " ++ strIntercalate ", " s.tags ++
      "\n  - Decisão: [ ]\n"
   else "") ++
  (if optIntTruthy s.relevancia_cacd then
    "- **Relevância CACD:** " ++ toString (s.relevancia_cacd.getD 0) ++
      "/5\n  - Decisão: [ ]\n"
   else "") ++
  (if !s.conexoes.isEmpty then
    "- **Conexões:** " ++ strIntercalate ", " s.conexoes ++
      "\n  - Decisão: [ ]\n"
   else "") ++
  "\n---\n\n"

/-- Content written by `generate_feedback_file` (`none` when there is
nothing to review and no file is written); `now` stands for the timestamp
rendering of `datetime.now()`. -/
def generate_feedback_content (cfg : Config)
    (kmap : List (String × List LabelTriple)) (store : List Note)
    (now : String) : Option String :=
  let pairs := reviewPairs cfg kmap store
  if pairs.isEmpty then none
  else some ("# CACD - Revisão de Metadados\n\n" ++
    "Gerado em: " ++ now ++ "\n\n" ++
    "**Instruções:** Marque com [x] para aprovar, [ ] para rejeitar\n\n" ++
    String.join (pairs.map (fun p => mkSection p.1 p.2)))

/-- The operator action of C1: every unchecked decision line of the
generated file is marked `[x]`. -/
def mark_all_approvals (content : String) : String :=
  strIntercalate "\n" ((pySplitSep content "\n").map
    (fun l => if l = "  - Decisão: [ ]" then "  - Decisão: [x]" else l))

/-! ### Review File parsing (`process_feedback_file`) -/

def containsSubStr (needle s : String) : Bool :=
  containsSub needle.data s.data

/-- Inner scan for the lazy group of `\*\*(.+?):\*\* (.+)`: finds the
first position after the opening `**` where `:** ` follows a non-empty
group and is itself followed by a non-empty remainder. -/
def tryFieldAt : List Char → List Char → Option (String × String)
  | _, [] => none
  | acc, l@(c :: cs) =>
    if (":** ".data.isPrefixOf l) && (!acc.isEmpty) &&
        (!(l.drop 4).isEmpty) then
      some (String.mk acc.reverse, String.mk (l.drop 4))
    else tryFieldAt (c :: acc) cs

/-- Leftmost search of `re.search(r"\*\*(.+?):\*\* (.+)", line)`. -/
def fieldSearch : List Char → Option (String × String)
  | [] => none
  | l@(_ :: cs) =>
    if "**".data.isPrefixOf l then
      match tryFieldAt [] (l.drop 2) with
      | some r => some r
      | none => fieldSearch cs
    else fieldSearch cs

def fieldMatch (line : String) : Option (String × String) :=
  fieldSearch line.data

/-- Label-to-field table of `process_feedback_file`. -/
def field_mapping : List (String × String) :=
  [("área", "area"), ("subárea", "subarea"), ("tópico", "topico"),
   ("tags", "tags"), ("relevância cacd", "relevancia_cacd"),
   ("conexões", "conexoes")]

def pyLowerS (s : String) : String := String.mk (s.data.map pyLower)

/-- Model of `int(s)` on decimal literals (None models the raised
`ValueError`, which the enclosing `try` of the source turns into an
overall failure). -/
def pyInt (s : String) : Option Int :=
  let t := pyStripChars s.data
  let core : Bool × List Char :=
    match t with
    | '-' :: r => (true, r)
    | '+' :: r => (false, r)
    | r => (false, r)
  if (!core.2.isEmpty) &&
      core.2.all (fun c => 48 ≤ c.toNat && c.toNat ≤ 57) then
    let v : Int := core.2.foldl (fun a c => a * 10 + ((c.toNat : Int) - 48)) 0
    some (if core.1 then -v else v)
  else none

/-- Ordered-dictionary update (`d[k] = v`). -/
def fmSet (m : List (String × PyVal)) (k : String) (v : PyVal) :
    List (String × PyVal) :=
  match m with
  | [] => [(k, v)]
  | e :: r => if e.1 = k then (k, v) :: r else e :: fmSet r k v

/-- Update of `approved_changes[title][field] = v` on the
`defaultdict(dict)` model. -/
def acSet (ac : List (String × List (String × PyVal))) (title k : String)
    (v : PyVal) : List (String × List (String × PyVal)) :=
  match ac with
  | [] => [(title, [(k, v)])]
  | e :: r =>
    if e.1 = title then (e.1, fmSet e.2 k v) :: r else e :: acSet r title k v

/-- Model of `content.split('\n').index(line)` followed by the
`[index - 1]` access: the first occurrence of the line text in the whole
file decides which line is treated as "preceding" (Python index `-1`
denotes the last element). -/
def prevLine (lines : List String) (line : String) : String :=
  let i := lines.findIdx (fun l => l == line)
  if i = 0 then lines.getLastD "" else lines.getD (i - 1) ""

/-- One iteration of the parsing loop of `process_feedback_file`;
the state is `none` once an exception (bad integer) occurred. -/
def parseStep (lines : List String)
    (st : Option (Option String × List (String × List (String × PyVal))))
    (line : String) :
    Option (Option String × List (String × List (String × PyVal))) :=
  match st with
  | none => none
  | some (cur, ac) =>
    if pyStartsWith line "## Nota:" then
      some (some (pyStripS (pyReplace line "## Nota:" "")), ac)
    else if containsSubStr "- Decisão: [x]" line then
      let prev := prevLine lines line
      match cur with
      | none => some (cur, ac)
      | some title =>
        if title ≠ "" ∧ containsSubStr "**" prev = true then
          match fieldMatch prev with
          | none => some (cur, ac)
          | some fv =>
            match field_mapping.find? (fun p => p.1 == pyLowerS fv.1) with
            | none => some (cur, ac)
            | some mp =>
              if mp.2 = "tags" then
                some (cur, acSet ac title mp.2
                  (PyVal.vList ((pySplitSep fv.2 ",").map pyStripS)))
              else if mp.2 = "relevancia_cacd" then
                match pyInt ((pySplitSep fv.2 "/").headD "") with
                | none => none
                | some n => some (cur, acSet ac title mp.2 (PyVal.vInt n))
              else if mp.2 = "conexoes" then
                some (cur, acSet ac title mp.2
                  (PyVal.vList ((pySplitSep fv.2 ",").map pyStripS)))
              else some (cur, acSet ac title mp.2 (PyVal.vStr fv.2))
        else some (cur, ac)
    else some (cur, ac)

/-- Approval-collection phase of `process_feedback_file`: walks the lines,
tracking the current note section, and accumulates the approved field
values (`none` models the whole operation failing on an exception). -/
def parseApprovals (content : String) :
    Option (List (String × List (String × PyVal))) :=
  let lines := pySplitSep content "\n"
  (lines.foldl (parseStep lines) (some (none, []))).map (fun st => st.2)

/-! ### Claim C1: the Review File round trip -/

def taxC1 : Taxonomy := [("Geografia", TaxContent.dict [])]

def kmapC1 : List (String × List LabelTriple) := build_keyword_map taxC1

def noteC1 : Note :=
  { id := "n1.md", title := "Nota1", content := "geografia",
    frontmatter := [], file_path := ⟨"n1", ".md"⟩ }

section RatKernelReduction

attribute [local semireducible] Rat.mul Rat.add Rat.sub Rat.inv

set_option maxRecDepth 20000 in
/-- C1: evaluation at the failing input.  For a one-note store whose
suggestion emits the two fields Área and Relevância CACD, generating the
Review File and marking every checkbox produces a file whose parse
records only `area` — the approval of the emitted `relevancia_cacd` field
is lost, because `content.split('\n').index(line)` resolves every
identical checked decision line to its first occurrence in the file, so
every approval inspects the field line preceding the first checkbox
rather than the immediately preceding line. -/
theorem c1_roundtrip_bug :
    parseApprovals (mark_all_approvals
        ((generate_feedback_content default_config kmapC1 [noteC1]
          "2025-01-01 00:00").getD "")) =
      some [("Nota1", [("area", PyVal.vStr "Geografia")])] ∧
    containsSubStr "- **Relevância CACD:** 4/5\n  - Decisão: [x]"
      (mark_all_approvals ((generate_feedback_content default_config kmapC1
        [noteC1] "2025-01-01 00:00").getD "")) = true := by
  decide

end RatKernelReduction

/-! ### File system model and metadata application (claims C2, C9) -/

/-- File system as a finite map from paths to contents. -/
abbrev FS := List (MPath × String)

def fsRead (fs : FS) (p : MPath) : Option String :=
  (fs.find? (fun e => e.1 == p)).map (fun e => e.2)

def fsExists (fs : FS) (p : MPath) : Bool :=
  (fs.find? (fun e => e.1 == p)).isSome

def fsWrite (fs : FS) (p : MPath) (c : String) : FS :=
  match fs with
  | [] => [(p, c)]
  | e :: r => if e.1 = p then (p, c) :: r else e :: fsWrite r p c

def fsRemove (fs : FS) (p : MPath) : FS :=
  fs.filter (fun e => !(e.1 == p))

/-- Simplified scalar rendering standing in for the YAML emitter; the
settled claims never reach the success path that uses it. -/
def yamlRender (v : PyVal) : String :=
  match v with
  | .vNone => "null"
  | .vStr s => s
  | .vInt n => toString n
  | .vBool b => if b then "true" else "false"
  | .vList l => String.join (l.map (fun x => "- " ++ x ++ "\n"))

/-- Simplified flat rendering standing in for
`yaml.dump(fm, default_flow_style=False, allow_unicode=True)` (which
sorts keys); the settled claims never reach the success path using it. -/
def yamlDumpFM (fm : List (String × PyVal)) : String :=
  String.join ((fm.mergeSort (fun a b => a.1 ≤ b.1)).map (fun e =>
    match e.2 with
    | .vList l => e.1 ++ ":\n" ++ yamlRender (.vList l)
    | v => e.1 ++ ": " ++ yamlRender v ++ "\n"))

/-- Simplified header parsing standing in for `yaml.safe_load` of the
block between the `---` markers (flat `key: value` lines, values read as
strings); the settled claims never reach this success path. -/
def yamlLoadFM (s : String) : List (String × PyVal) :=
  (pySplitSep s "\n").foldl (fun fm line =>
    match pySplitSep line ": " with
    | [k, v] => fmSet fm k (PyVal.vStr v)
    | _ => fm) []

/-- Model of `content.split('---', 2)`. -/
def pySplit3 (sep s : String) : List String :=
  match splitOnceChars sep.data s.data with
  | none => [s]
  | some r =>
    match splitOnceChars sep.data r.2 with
    | none => [String.mk r.1, String.mk r.2]
    | some r2 => [String.mk r.1, String.mk r2.1, String.mk r2.2]

/-- Model of `CACDMetadataAnalyzer._apply_metadata_changes` acting on an
explicit file system; returns the Python boolean result together with the
file system as left at the point of return (exceptions raised by `rename`
or `open` are caught by the enclosing `try`, which returns `False`
keeping whatever renames already happened). -/
def apply_metadata_changes (cfg : Config) (fs : FS) (note : Note)
    (changes : List (String × PyVal)) : Bool × FS :=
  let fp := note.file_path
  let backupStep : Option (FS × MPath) :=
    if cfg.backup_original then
      let bp := fp.with_suffix ".bak"
      if fsExists fs bp then some (fs, fp)
      else
        match fsRead fs fp with
        | none => none
        | some c0 =>
          some (fsWrite (fsRemove fs fp) bp c0, bp.with_suffix ".md")
    else some (fs, fp)
  match backupStep with
  | none => (false, fs)
  | some st =>
    match fsRead st.1 st.2 with
    | none => (false, st.1)
    | some content =>
      let parts := pySplit3 "---" content
      let fm : List (String × PyVal) :=
        if pyStartsWith content "---" ∧ 3 ≤ parts.length then
          yamlLoadFM (parts.getD 1 "")
        else []
      let main : String :=
        if pyStartsWith content "---" ∧ 3 ≤ parts.length then parts.getD 2 ""
        else content
      let fm2 := changes.foldl (fun m kv => fmSet m kv.1 kv.2) fm
      let newContent := "---\n" ++ yamlDumpFM fm2 ++ "---\n" ++ main
      (true, fsWrite st.1 st.2 newContent)

/-- Model of `CACDMetadataAnalyzer._find_note_by_title` (first match). -/
def find_note_by_title (store : List Note) (title : String) : Option Note :=
  store.find? (fun n => n.title == title)

/-- Application phase of `process_feedback_file`: for every accumulated
`(title, changes)` entry, look the note up by title and apply the
changes, counting successes. -/
def applyChangesLoop (cfg : Config) (store : List Note) (fs : FS)
    (approved : List (String × List (String × PyVal))) : Nat × FS :=
  approved.foldl (fun st e =>
    match find_note_by_title store e.1 with
    | none => st
    | some note =>
      let r := apply_metadata_changes cfg st.2 note e.2
      (if r.1 then st.1 + 1 else st.1, r.2)) (0, fs)

/-- Note whose file exists and has no backup yet, for the C2 evaluation. -/
def noteC2 : Note :=
  { id := "n1.md", title := "Nota1", content := "hello",
    frontmatter := [], file_path := ⟨"n1", ".md"⟩ }

/-- C2: evaluation at the failing input.  With backup-on-write enabled
(the default) and no existing backup, `_apply_metadata_changes` renames
the note file to its `.bak` sibling and then tries to read the original
path, which no longer exists: the apply fails, nothing is rewritten, and
the original path is left without a file (the content survives only under
the backup name). -/
theorem c2_backup_rename_bug :
    (apply_metadata_changes default_config [(⟨"n1", ".md"⟩, "hello")]
      noteC2 [("area", PyVal.vStr "X")]).1 = false ∧
    fsRead (apply_metadata_changes default_config
      [(⟨"n1", ".md"⟩, "hello")] noteC2
      [("area", PyVal.vStr "X")]).2 ⟨"n1", ".md"⟩ = none ∧
    fsRead (apply_metadata_changes default_config
      [(⟨"n1", ".md"⟩, "hello")] noteC2
      [("area", PyVal.vStr "X")]).2 ⟨"n1", ".bak"⟩ = some "hello" := by
  decide

/-- Two notes with existing files, for the C9 evaluation. -/
def noteC9a : Note :=
  { id := "a.md", title := "A", content := "", frontmatter := [],
    file_path := ⟨"a", ".md"⟩ }

def noteC9b : Note :=
  { id := "b.md", title := "B", content := "", frontmatter := [],
    file_path := ⟨"b", ".md"⟩ }

def fsC9 : FS := [(⟨"a", ".md"⟩, "ca"), (⟨"b", ".md"⟩, "cb")]

def approvedC9 : List (String × List (String × PyVal)) :=
  [("A", [("area", PyVal.vStr "X")]), ("B", [("area", PyVal.vStr "Y")])]

/-- C9: evaluation at the failing input.  Under the default configuration
(backup enabled), the apply step of every note fails through the backup
rename slip: the failing note's file is not left unchanged (it is moved
to its `.bak` sibling and the original path is emptied), and no other
note's approved changes are applied either — zero changes are counted. -/
theorem c9_failure_not_isolated :
    (applyChangesLoop default_config [noteC9a, noteC9b] fsC9
      approvedC9).1 = 0 ∧
    fsRead (applyChangesLoop default_config [noteC9a, noteC9b] fsC9
      approvedC9).2 ⟨"a", ".md"⟩ = none ∧
    fsRead (applyChangesLoop default_config [noteC9a, noteC9b] fsC9
      approvedC9).2 ⟨"b", ".md"⟩ = none ∧
    fsRead (applyChangesLoop default_config [noteC9a, noteC9b] fsC9
      approvedC9).2 ⟨"a", ".bak"⟩ = some "ca" ∧
    fsRead (applyChangesLoop default_config [noteC9a, noteC9b] fsC9
      approvedC9).2 ⟨"b", ".bak"⟩ = some "cb" := by
  decide

end CACD





